import Mathlib

/-!
Verification of the Microsoft Buildings/Roads downloader core
(`src/mainPlugin.py`), shallowly embedded in Lean 4.

The embedding covers: the bounding-box-to-quadkey tile indexer
(`get_quadkeys_for_bbox`, zoom levels 9 through 12), the manifest
selection by location name and by quadkey set, the manifest-cache load
step, and the sequential fetch-and-merge loop with per-row error
recovery, cooperative cancellation and integer progress reporting.

Geographic coordinates are modelled as rationals.  The spherical
Mercator latitude projection used by the external `mercantile` library
is transcendental, so the tile indexer is parameterized by an arbitrary
antitone projection `proj : latitude → fractional row coordinate`; all
tile-indexer theorems hold for every such projection, the concrete
Mercator map included.
-/

namespace MS

/-! ### Data model -/

/-- Geographic bounding box in degrees: west, south, east, north. -/
structure BBox where
  west : ℚ
  south : ℚ
  east : ℚ
  north : ℚ
deriving DecidableEq, Repr

/-- A slippy-map tile: column `x`, row `y`, zoom level `z`. -/
structure Tile where
  x : ℕ
  y : ℕ
  z : ℕ
deriving DecidableEq, Repr

/-- Base-4 digits of a tile's quadkey, most significant first: digit `k`
uses bit `z - 1 - k` of the row and column indices, row bit weighted 2
(the bit-interleaving of `mercantile.quadkey`). -/
def quadkeyDigits (x y : ℕ) : ℕ → List ℕ
  | 0 => []
  | i + 1 => (2 * (y / 2 ^ i % 2) + x / 2 ^ i % 2) :: quadkeyDigits x y i

/-- Quadkey string of a tile; length equals the zoom level. -/
def quadkey (t : Tile) : String :=
  String.mk ((quadkeyDigits t.x t.y t.z).map fun d => Char.ofNat (48 + d))

/-- Northern/southern limit of the valid spherical-Mercator latitude
range, 85.051129 degrees. -/
def MERCATOR_LAT_MAX : ℚ := 85051129 / 1000000

/-- Modelled from the spec: latitude is clamped to the valid Mercator
range before projecting (`mercantile` tile math, not under src/). -/
def clampLat (lat : ℚ) : ℚ := max (-MERCATOR_LAT_MAX) (min MERCATOR_LAT_MAX lat)

/-- Modelled from the spec: longitude to fractional tile column in
[0, 1] (`mercantile` tile math, not under src/). -/
def lngX (lng : ℚ) : ℚ := lng / 360 + 1 / 2

/-- Modelled from the spec: fractional coordinate to integer tile index
at zoom `z` — floor, clamped into `[0, 2^z - 1]` (`mercantile` tile
math, not under src/). -/
def tileIndex (v : ℚ) (z : ℕ) : ℕ :=
  if v ≤ 0 then 0
  else if 1 ≤ v then 2 ^ z - 1
  else min (2 ^ z - 1) (Int.toNat ⌊v * (2 ^ z : ℚ)⌋)

/-- Modelled from the spec: `mercantile.tiles` (not under src/) —
project the corners, floor to integer tile indices, and enumerate the
inclusive rectangle of tiles whose Mercator extent intersects the box.
`proj` is the Mercator latitude-to-fractional-row projection. -/
def tilesCovering (proj : ℚ → ℚ) (b : BBox) (z : ℕ) : List Tile :=
  let x0 := tileIndex (lngX b.west) z
  let x1 := tileIndex (lngX b.east) z
  let y0 := tileIndex (proj (clampLat b.north)) z
  let y1 := tileIndex (proj (clampLat b.south)) z
  (List.range (x1 + 1 - x0)).flatMap fun i =>
    (List.range (y1 + 1 - y0)).map fun j => ⟨x0 + i, y0 + j, z⟩

/-- `get_quadkeys_for_bbox` (src/mainPlugin.py:224-249): union, over the
zoom levels `range(9, 13)`, of the quadkeys of the tiles intersecting
the box, accumulated into one deduplicated set. -/
def get_quadkeys_for_bbox (proj : ℚ → ℚ) (b : BBox) : Finset String :=
  (List.range' 9 4).foldl
    (fun acc z => acc ∪ ((tilesCovering proj b z).map quadkey).toFinset) ∅

/-! ### Manifest resolver -/

/-- One row of the `dataset-links.csv` manifest. -/
structure ManifestRow where
  Location : String
  QuadKey : String
  Url : String
deriving DecidableEq, Repr

/-- The fatal job failures raised by `processAlgorithm` as
`QgsProcessingException`s. -/
inductive JobError where
  /-- the manifest CSV could not be loaded (src/mainPlugin.py:117,123) -/
  | manifestLoadError : JobError
  /-- the bounding box produced no quadkeys (src/mainPlugin.py:162) -/
  | noQuadkeysError : JobError
  /-- the selection matched zero manifest rows (src/mainPlugin.py:173) -/
  | noDataFoundError : JobError
  /-- every selected row failed to download (src/mainPlugin.py:205) -/
  | noDataDownloadedError : JobError
deriving DecidableEq, Repr

/-- Selection by location name (src/mainPlugin.py:170) followed by the
shared emptiness check (src/mainPlugin.py:172-173). -/
def selectByLocation (table : List ManifestRow) (name : String) :
    Except JobError (List ManifestRow) :=
  let d := table.filter fun r => r.Location == name
  if d.length = 0 then .error .noDataFoundError else .ok d

/-- Selection by quadkey membership (src/mainPlugin.py:165) followed by
the shared emptiness check (src/mainPlugin.py:172-173). -/
def selectByTileIds (table : List ManifestRow) (ids : Finset String) :
    Except JobError (List ManifestRow) :=
  let d := table.filter fun r => decide (r.QuadKey ∈ ids)
  if d.length = 0 then .error .noDataFoundError else .ok d

/-- The custom-area path (src/mainPlugin.py:156-165): compute the
quadkey set for the extent, fail if it is empty, otherwise filter the
manifest by quadkey membership. -/
def customAreaSelect (proj : ℚ → ℚ) (b : BBox) (table : List ManifestRow) :
    Except JobError (List ManifestRow) :=
  let qks := get_quadkeys_for_bbox proj b
  if qks = ∅ then .error .noQuadkeysError
  else selectByTileIds table qks

/-! ### Tile indexer lemmas -/

theorem tileIndex_mono {u v : ℚ} (h : u ≤ v) (z : ℕ) :
    tileIndex u z ≤ tileIndex v z := by
  unfold tileIndex
  by_cases hu0 : u ≤ 0
  · simp [hu0]
  · have hv0 : ¬v ≤ 0 := fun hv => hu0 (h.trans hv)
    by_cases hu1 : 1 ≤ u
    · have hv1 : 1 ≤ v := hu1.trans h
      simp [hu0, hv0, hu1, hv1]
    · by_cases hv1 : 1 ≤ v
      · simp only [if_neg hu0, if_neg hv0, if_neg hu1, if_pos hv1]
        exact min_le_left _ _
      · simp only [if_neg hu0, if_neg hv0, if_neg hu1, if_neg hv1]
        refine min_le_min le_rfl ?_
        exact Int.toNat_le_toNat (Int.floor_le_floor
          (mul_le_mul_of_nonneg_right h (by positivity)))

theorem mem_tilesCovering_corner (proj : ℚ → ℚ)
    (hproj : ∀ u v : ℚ, u ≤ v → proj v ≤ proj u)
    (b : BBox) (hwe : b.west ≤ b.east) (hsn : b.south ≤ b.north) (z : ℕ) :
    (⟨tileIndex (lngX b.west) z, tileIndex (proj (clampLat b.north)) z, z⟩ : Tile)
      ∈ tilesCovering proj b z := by
  have hx : tileIndex (lngX b.west) z ≤ tileIndex (lngX b.east) z := by
    refine tileIndex_mono ?_ z
    unfold lngX
    linarith
  have hclamp : clampLat b.south ≤ clampLat b.north := by
    unfold clampLat
    exact max_le_max le_rfl (min_le_min le_rfl hsn)
  have hy : tileIndex (proj (clampLat b.north)) z
      ≤ tileIndex (proj (clampLat b.south)) z :=
    tileIndex_mono (hproj _ _ hclamp) z
  unfold tilesCovering
  simp only [List.mem_flatMap, List.mem_map, List.mem_range]
  refine ⟨0, ?_, 0, ?_, by simp⟩
  · omega
  · omega

theorem foldl_union_mem {α : Type} [DecidableEq α] (f : ℕ → Finset α)
    (l : List ℕ) (init : Finset α) (q : α) :
    q ∈ l.foldl (fun acc z => acc ∪ f z) init ↔ q ∈ init ∨ ∃ z ∈ l, q ∈ f z := by
  induction l generalizing init with
  | nil => simp
  | cons a l ih =>
    simp only [List.foldl_cons, ih, Finset.mem_union, List.mem_cons]
    constructor
    · rintro ((h | h) | ⟨z, hz, hq⟩)
      · exact Or.inl h
      · exact Or.inr ⟨a, Or.inl rfl, h⟩
      · exact Or.inr ⟨z, Or.inr hz, hq⟩
    · rintro (h | ⟨z, rfl | hz, hq⟩)
      · exact Or.inl (Or.inl h)
      · exact Or.inl (Or.inr hq)
      · exact Or.inr ⟨z, hz, hq⟩

/-- C1: on the custom-area path the computed identifier set is exactly
the union, over zoom levels 9 through 12, of the quadkeys of the tiles
intersecting the box, deduplicated into one set; that set is then used
to filter the manifest, and as long as some identifier matches a row
the selection succeeds with the filtered rows — identifiers matching no
manifest row do not by themselves cause an error. -/
theorem c1_custom_area_quadkeys (proj : ℚ → ℚ) (b : BBox)
    (table : List ManifestRow) :
    (∀ q : String, q ∈ get_quadkeys_for_bbox proj b ↔
      ∃ z : ℕ, 9 ≤ z ∧ z ≤ 12 ∧ q ∈ (tilesCovering proj b z).map quadkey)
    ∧ ((∃ r ∈ table, r.QuadKey ∈ get_quadkeys_for_bbox proj b) →
      customAreaSelect proj b table
        = .ok (table.filter fun r =>
            decide (r.QuadKey ∈ get_quadkeys_for_bbox proj b))) := by
  constructor
  · intro q
    unfold get_quadkeys_for_bbox
    rw [foldl_union_mem]
    simp only [Finset.not_mem_empty, false_or, List.mem_toFinset, List.mem_range'_1]
    constructor
    · rintro ⟨z, ⟨h9, h13⟩, hq⟩
      exact ⟨z, h9, by omega, hq⟩
    · rintro ⟨z, h9, h12, hq⟩
      exact ⟨z, ⟨h9, by omega⟩, hq⟩
  · rintro ⟨r, hr, hq⟩
    have hmem : r ∈ table.filter fun s =>
        decide (s.QuadKey ∈ get_quadkeys_for_bbox proj b) := by
      rw [List.mem_filter]
      exact ⟨hr, by simpa using hq⟩
    have hlen : ¬((table.filter fun s =>
        decide (s.QuadKey ∈ get_quadkeys_for_bbox proj b)).length = 0) := by
      simpa [List.length_eq_zero] using List.ne_nil_of_mem hmem
    unfold customAreaSelect selectByTileIds
    rw [if_neg (by simpa using Finset.ne_empty_of_mem hq)]
    simp only [hlen, if_false]

/-- Antitone linear stand-in for the Mercator latitude projection, used
to instantiate projection-parameterized theorems at a concrete input. -/
def projLin : ℚ → ℚ := fun lat => 1 / 2 - lat / 360

theorem tilesCovering_origin_9 :
    tilesCovering projLin ⟨0, 0, 0, 0⟩ 9 = [⟨256, 256, 9⟩] := by
  have h1 : lngX (0 : ℚ) = 1 / 2 := by norm_num [lngX]
  have h2 : projLin (clampLat (0 : ℚ)) = 1 / 2 := by
    norm_num [projLin, clampLat, MERCATOR_LAT_MAX]
  have h3 : tileIndex (1 / 2) 9 = 256 := by
    rw [tileIndex]
    norm_num
    rfl
  simp only [tilesCovering, h1, h2, h3]
  decide

/-- Witness for C1: for the degenerate box at the origin the custom-area
path selects exactly the manifest row whose quadkey is the zoom-9 tile
containing the origin. -/
theorem c1_witness :
    customAreaSelect projLin ⟨0, 0, 0, 0⟩ [⟨"Aruba", "300000000", "u"⟩]
      = .ok [⟨"Aruba", "300000000", "u"⟩] := by
  have hq : ("300000000" : String)
      ∈ get_quadkeys_for_bbox projLin ⟨0, 0, 0, 0⟩ :=
    ((c1_custom_area_quadkeys projLin ⟨0, 0, 0, 0⟩
        [⟨"Aruba", "300000000", "u"⟩]).1 "300000000").mpr
      ⟨9, by norm_num, by norm_num, by rw [tilesCovering_origin_9]; decide⟩
  have h := (c1_custom_area_quadkeys projLin ⟨0, 0, 0, 0⟩
      [⟨"Aruba", "300000000", "u"⟩]).2
    ⟨⟨"Aruba", "300000000", "u"⟩, by simp, hq⟩
  rw [h]
  simp [List.filter_cons, hq]

/-- C7: for every valid bounding box — the degenerate west = east or
south = north cases included — not lying entirely outside the valid
Mercator latitude range, the tile enumeration at each zoom level 9
through 12 is non-empty, and contains in particular the tile of the
box's north-west corner. -/
theorem c7_tiles_nonempty (proj : ℚ → ℚ) (b : BBox)
    (hproj : ∀ u v : ℚ, u ≤ v → proj v ≤ proj u)
    (hwe : b.west ≤ b.east) (hsn : b.south ≤ b.north)
    (hin : ¬(b.north < -MERCATOR_LAT_MAX ∨ MERCATOR_LAT_MAX < b.south)) :
    ∀ z : ℕ, 9 ≤ z ∧ z ≤ 12 →
      tilesCovering proj b z ≠ [] ∧
      (⟨tileIndex (lngX b.west) z,
        tileIndex (proj (clampLat b.north)) z, z⟩ : Tile)
        ∈ tilesCovering proj b z := by
  intro z _
  have hm := mem_tilesCovering_corner proj hproj b hwe hsn z
  exact ⟨List.ne_nil_of_mem hm, hm⟩

/-- Witness for C7: the doubly degenerate box at longitude 10, latitude
20 still yields a tile at zoom 9, namely the tile containing the point. -/
theorem c7_witness :
    tilesCovering projLin ⟨10, 20, 10, 20⟩ 9 ≠ [] ∧
    (⟨270, 227, 9⟩ : Tile) ∈ tilesCovering projLin ⟨10, 20, 10, 20⟩ 9 := by
  have h := c7_tiles_nonempty projLin ⟨10, 20, 10, 20⟩
    (fun u v huv => by unfold projLin; linarith)
    (by norm_num) (by norm_num)
    (by unfold MERCATOR_LAT_MAX; norm_num) 9 ⟨by norm_num, by norm_num⟩
  refine ⟨h.1, ?_⟩
  have hx : tileIndex (lngX (10 : ℚ)) 9 = 270 := by
    rw [show lngX (10 : ℚ) = 19 / 36 by norm_num [lngX], tileIndex]
    norm_num
    rfl
  have hy : tileIndex (projLin (clampLat (20 : ℚ))) 9 = 227 := by
    rw [show projLin (clampLat (20 : ℚ)) = 4 / 9 by
      norm_num [projLin, clampLat, MERCATOR_LAT_MAX], tileIndex]
    norm_num
    rfl
  have h2 := h.2
  rw [show (⟨10, 20, 10, 20⟩ : BBox).west = (10 : ℚ) from rfl,
    show (⟨10, 20, 10, 20⟩ : BBox).north = (20 : ℚ) from rfl, hx, hy] at h2
  exact h2

/-- C3: each selection fails with `NoDataFoundError` exactly when no
row matches — exact string equality on `Location`, membership of
`QuadKey` in the identifier set — and on success returns precisely the
matching rows, with no extraneous and no missing rows. -/
theorem c3_selection_exact (table : List ManifestRow) (name : String)
    (ids : Finset String) :
    (selectByLocation table name = .error .noDataFoundError ↔
      ∀ r ∈ table, r.Location ≠ name)
    ∧ (∀ rows, selectByLocation table name = .ok rows →
        rows = table.filter (fun r => r.Location == name)
        ∧ ∀ r, r ∈ rows ↔ r ∈ table ∧ r.Location = name)
    ∧ (selectByTileIds table ids = .error .noDataFoundError ↔
      ∀ r ∈ table, r.QuadKey ∉ ids)
    ∧ (∀ rows, selectByTileIds table ids = .ok rows →
        rows = table.filter (fun r => decide (r.QuadKey ∈ ids))
        ∧ ∀ r, r ∈ rows ↔ r ∈ table ∧ r.QuadKey ∈ ids) := by
  refine ⟨?_, ?_, ?_, ?_⟩
  · unfold selectByLocation
    by_cases h : (table.filter (fun r => r.Location == name)).length = 0
    · simp only [h, if_true, true_iff]
      intro r hr
      have := (List.filter_eq_nil_iff.mp (List.length_eq_zero.mp h)) r hr
      simpa using this
    · simp only [h, if_false]
      constructor
      · intro hc; exact absurd hc (by simp)
      · intro hall
        exact absurd (List.length_eq_zero.mpr
          (List.filter_eq_nil_iff.mpr fun r hr => by simpa using hall r hr)) h
  · intro rows hrows
    unfold selectByLocation at hrows
    by_cases h : (table.filter (fun r => r.Location == name)).length = 0
    · rw [if_pos h] at hrows; exact absurd hrows (by simp)
    · rw [if_neg h] at hrows
      have heq : rows = table.filter (fun r => r.Location == name) :=
        (Except.ok.inj hrows).symm
      refine ⟨heq, fun r => ?_⟩
      rw [heq, List.mem_filter]
      simp
  · unfold selectByTileIds
    by_cases h : (table.filter (fun r => decide (r.QuadKey ∈ ids))).length = 0
    · simp only [h, if_true, true_iff]
      intro r hr
      have := (List.filter_eq_nil_iff.mp (List.length_eq_zero.mp h)) r hr
      simpa using this
    · simp only [h, if_false]
      constructor
      · intro hc; exact absurd hc (by simp)
      · intro hall
        exact absurd (List.length_eq_zero.mpr
          (List.filter_eq_nil_iff.mpr fun r hr => by simpa using hall r hr)) h
  · intro rows hrows
    unfold selectByTileIds at hrows
    by_cases h : (table.filter (fun r => decide (r.QuadKey ∈ ids))).length = 0
    · rw [if_pos h] at hrows; exact absurd hrows (by simp)
    · rw [if_neg h] at hrows
      have heq : rows = table.filter (fun r => decide (r.QuadKey ∈ ids)) :=
        (Except.ok.inj hrows).symm
      refine ⟨heq, fun r => ?_⟩
      rw [heq, List.mem_filter]
      simp

/-- Witness for C3: a three-row manifest with two Aruba rows and one
Fiji row: selecting Fiji returns exactly the Fiji row, selecting an
absent location fails with `NoDataFoundError`. -/
theorem c3_witness :
    selectByLocation
      [⟨"Aruba", "0", "a"⟩, ⟨"Aruba", "1", "b"⟩, ⟨"Fiji", "2", "c"⟩] "Fiji"
      = .ok [⟨"Fiji", "2", "c"⟩]
    ∧ selectByLocation
      [⟨"Aruba", "0", "a"⟩, ⟨"Aruba", "1", "b"⟩, ⟨"Fiji", "2", "c"⟩] "Chile"
      = .error .noDataFoundError := by
  constructor
  · rfl
  · exact (c3_selection_exact
      [⟨"Aruba", "0", "a"⟩, ⟨"Aruba", "1", "b"⟩, ⟨"Fiji", "2", "c"⟩]
      "Chile" ∅).1.mpr (by decide)

/-! ### Manifest cache (load step) -/

/-- Default online manifest source (src/mainPlugin.py:120). -/
def ONLINE_MANIFEST_URL : String :=
  "https://minedbuildings.z5.web.core.windows.net/global-buildings/dataset-links.csv"

/-- Result of the manifest load step: the table in use, the cache left
on the instance, and how many fetches were performed. -/
structure LoadOutcome where
  table : List ManifestRow
  cache : Option (List ManifestRow)
  loads : ℕ
deriving DecidableEq, Repr

/-- `__init__` (src/mainPlugin.py:40-42): a fresh algorithm instance
starts with `dataset_links = None`, so each job run begins with its own
empty cache. -/
def initCache : Option (List ManifestRow) := none

/-- Manifest load step of `processAlgorithm` (src/mainPlugin.py:111-123):
an explicitly supplied CSV path forces a load from it; otherwise the
cached table is reused when present, and only a missing cache triggers a
load from the online source. `fetch` is the download/parse collaborator. -/
def loadManifestStep (fetch : String → Except String (List ManifestRow))
    (cache : Option (List ManifestRow)) (csvPath : String) :
    Except JobError LoadOutcome :=
  if csvPath ≠ "" then
    match fetch csvPath with
    | .ok t => .ok ⟨t, some t, 1⟩
    | .error _ => .error .manifestLoadError
  else
    match cache with
    | some t => .ok ⟨t, some t, 0⟩
    | none =>
      match fetch ONLINE_MANIFEST_URL with
      | .ok t => .ok ⟨t, some t, 1⟩
      | .error _ => .error .manifestLoadError

/-! ### Fetch-and-merge engine -/

/-- A feature as parsed from one line of a partition file. -/
structure RawFeature where
  geometry : String
deriving DecidableEq, Repr

/-- A feature after provenance tagging (src/mainPlugin.py:194-196). -/
structure Feature where
  geometry : String
  quadkey : String
  location : String
deriving DecidableEq, Repr

/-- Reporter calls made by the download loop. -/
inductive Event where
  /-- `setProgress` (src/mainPlugin.py:185) -/
  | progress : ℕ → Event
  /-- `pushInfo` (src/mainPlugin.py:186) -/
  | info : String → Event
  /-- `reportError` (src/mainPlugin.py:201) -/
  | error : String → Event
deriving DecidableEq, Repr

/-- State produced by the download loop: the per-row feature frames
(`all_gdfs`) and the reporter events, in order. -/
structure FetchOut where
  gdfs : List (List Feature)
  events : List Event
deriving DecidableEq, Repr

/-- Provenance tagging of one parsed feature (src/mainPlugin.py:194-196). -/
def tagRow (r : ManifestRow) (f : RawFeature) : Feature :=
  ⟨f.geometry, r.QuadKey, r.Location⟩

/-- Round a rational to the nearest integer, ties going to the even
integer (the rounding IEEE-754 applies to the scaled significand). -/
def roundNearestEven (x : ℚ) : ℤ :=
  if x - ⌊x⌋ < 1 / 2 then ⌊x⌋
  else if 1 / 2 < x - ⌊x⌋ then ⌊x⌋ + 1
  else if ⌊x⌋ % 2 = 0 then ⌊x⌋ else ⌊x⌋ + 1

/-- Round a rational to the nearest IEEE-754 binary64 value — the
rounding Python applies to every float operation: scale by the power of
two that puts the value's significand at 53 bits, round to nearest with
ties to even, and scale back. The exponent is taken unbounded, faithful
for the magnitudes the progress computation produces (no overflow or
subnormals there). -/
def floatRound (q : ℚ) : ℚ :=
  if q = 0 then 0
  else if 0 < q then
    (roundNearestEven (q * (2:ℚ) ^ ((52:ℤ) - Int.log 2 q)) : ℚ)
      * (2:ℚ) ^ (Int.log 2 q - 52)
  else
    -((roundNearestEven (-q * (2:ℚ) ^ ((52:ℤ) - Int.log 2 (-q))) : ℚ)
      * (2:ℚ) ^ (Int.log 2 (-q) - 52))

/-- The progress expression of src/mainPlugin.py:184,
`int((idx / len(location_data)) * 100)`, with the division and the
multiplication evaluated in binary64 as Python does (both operands of
the division are exactly representable) and `int` truncating the
non-negative result. -/
def pyProgress (idx total : ℕ) : ℕ :=
  (⌊floatRound (floatRound ((idx : ℚ) / (total : ℚ)) * 100)⌋).toNat

/-- The download loop (src/mainPlugin.py:179-202): per row, check the
cancellation flag and break if set; report progress
`int(idx / total * 100)` — evaluated in binary64, see `pyProgress` —
and an info line; attempt the download, and on success append the
tagged frame, on failure report the error with the row's quadkey and
continue. `download` is the network/parse collaborator, `idx` the
running row index. -/
def fetchLoop (download : ManifestRow → Except String (List RawFeature))
    (isCanceled : ℕ → Bool) (total : ℕ) :
    List ManifestRow → ℕ → FetchOut
  | [], _ => ⟨[], []⟩
  | r :: rest, idx =>
    if isCanceled idx then ⟨[], []⟩
    else
      let evs := [Event.progress (pyProgress idx total),
        Event.info ("Downloading quadkey " ++ r.QuadKey ++ "...")]
      match download r with
      | .ok fs =>
        let out := fetchLoop download isCanceled total rest (idx + 1)
        ⟨fs.map (tagRow r) :: out.gdfs, evs ++ out.events⟩
      | .error e =>
        let out := fetchLoop download isCanceled total rest (idx + 1)
        ⟨out.gdfs,
          evs ++ (Event.error ("Failed to download " ++ r.QuadKey ++ ": " ++ e)
            :: out.events)⟩

/-- The engine (src/mainPlugin.py:179-212): run the loop over the
selected rows; if no frame was collected fail with
`NoDataDownloadedError`, otherwise concatenate all frames. -/
def fetchAndMerge (download : ManifestRow → Except String (List RawFeature))
    (isCanceled : ℕ → Bool) (rows : List ManifestRow) :
    Except JobError (List Feature) × List Event :=
  let out := fetchLoop download isCanceled rows.length rows 0
  if out.gdfs.isEmpty then (.error .noDataDownloadedError, out.events)
  else (.ok out.gdfs.flatten, out.events)

/-- The tagged frame a row contributes when its download succeeds,
`none` when it fails. -/
def succFeatures (download : ManifestRow → Except String (List RawFeature))
    (r : ManifestRow) : Option (List Feature) :=
  match download r with
  | .ok fs => some (fs.map (tagRow r))
  | .error _ => none

/-- The error report a row causes when its download fails, `none` when
it succeeds. -/
def errEvent (download : ManifestRow → Except String (List RawFeature))
    (r : ManifestRow) : Option Event :=
  match download r with
  | .ok _ => none
  | .error e => some (.error ("Failed to download " ++ r.QuadKey ++ ": " ++ e))

def isErrorEvent : Event → Bool
  | .error _ => true
  | _ => false

/-- The error reports among a run's events. -/
def errorEvents (evs : List Event) : List Event := evs.filter isErrorEvent

/-! ### Engine lemmas -/

theorem fetchAndMerge_snd (download : ManifestRow → Except String (List RawFeature))
    (isCanceled : ℕ → Bool) (rows : List ManifestRow) :
    (fetchAndMerge download isCanceled rows).2
      = (fetchLoop download isCanceled rows.length rows 0).events := by
  unfold fetchAndMerge
  by_cases h : (fetchLoop download isCanceled rows.length rows 0).gdfs.isEmpty
  · simp [h]
  · simp [h]

theorem fetchLoop_noCancel_gdfs
    (download : ManifestRow → Except String (List RawFeature)) (total : ℕ) :
    ∀ (rows : List ManifestRow) (idx : ℕ),
      (fetchLoop download (fun _ => false) total rows idx).gdfs
        = rows.filterMap (succFeatures download) := by
  intro rows
  induction rows with
  | nil => intro idx; simp [fetchLoop]
  | cons r rest ih =>
    intro idx
    cases hdr : download r with
    | ok fs =>
      simp [fetchLoop, hdr, List.filterMap_cons, succFeatures, ih (idx + 1)]
    | error e =>
      simp [fetchLoop, hdr, List.filterMap_cons, succFeatures, ih (idx + 1)]

theorem fetchLoop_noCancel_errorEvents
    (download : ManifestRow → Except String (List RawFeature)) (total : ℕ) :
    ∀ (rows : List ManifestRow) (idx : ℕ),
      errorEvents (fetchLoop download (fun _ => false) total rows idx).events
        = rows.filterMap (errEvent download) := by
  intro rows
  induction rows with
  | nil => intro idx; simp [fetchLoop, errorEvents]
  | cons r rest ih =>
    intro idx
    have ih' := ih (idx + 1)
    unfold errorEvents at ih'
    cases hdr : download r with
    | ok fs =>
      simp [fetchLoop, hdr, List.filterMap_cons, errEvent, errorEvents,
        List.filter_append, List.filter_cons, isErrorEvent, ih']
    | error e =>
      simp [fetchLoop, hdr, List.filterMap_cons, errEvent, errorEvents,
        List.filter_append, List.filter_cons, isErrorEvent, ih']

theorem fetchLoop_cancelAfter
    (download : ManifestRow → Except String (List RawFeature)) (total k : ℕ) :
    ∀ (rows : List ManifestRow) (idx : ℕ),
      fetchLoop download (fun i => decide (k ≤ i)) total rows idx
        = fetchLoop download (fun _ => false) total (rows.take (k - idx)) idx := by
  intro rows
  induction rows with
  | nil => intro idx; simp [fetchLoop, List.take_nil]
  | cons r rest ih =>
    intro idx
    by_cases hk : k ≤ idx
    · have h0 : k - idx = 0 := by omega
      simp [fetchLoop, hk, h0]
    · have h1 : k - idx = (k - (idx + 1)) + 1 := by omega
      rw [h1, List.take_succ_cons]
      have h2 : decide (k ≤ idx) = false := by simp [hk]
      cases hdr : download r with
      | ok fs => simp [fetchLoop, h2, hdr, ih (idx + 1)]
      | error e => simp [fetchLoop, h2, hdr, ih (idx + 1)]

theorem fetchLoop_gdfs_nil
    (download : ManifestRow → Except String (List RawFeature))
    (isCanceled : ℕ → Bool) (total : ℕ) :
    ∀ (rows : List ManifestRow) (idx : ℕ),
      (∀ j (hj : j < rows.length), isCanceled (idx + j) = true
        ∨ ∃ e, download (rows.get ⟨j, hj⟩) = .error e) →
      (fetchLoop download isCanceled total rows idx).gdfs = [] := by
  intro rows
  induction rows with
  | nil => intro idx _; simp [fetchLoop]
  | cons r rest ih =>
    intro idx h
    by_cases hc : isCanceled idx = true
    · simp [fetchLoop, hc]
    · have hc' : isCanceled idx = false := by
        revert hc; cases isCanceled idx <;> simp
      have h0 := h 0 (by simp)
      rw [Nat.add_zero] at h0
      rcases h0 with h0 | ⟨e, he⟩
      · exact absurd h0 hc
      · have he' : download r = .error e := he
        simp only [fetchLoop, hc', Bool.false_eq_true, if_false, he']
        refine ih (idx + 1) fun j hj => ?_
        have hj' : j + 1 < (r :: rest).length := by simpa using Nat.succ_lt_succ hj
        have := h (j + 1) hj'
        rw [List.get_cons_succ, show idx + (j + 1) = idx + 1 + j by omega] at this
        exact this

theorem fetchLoop_gdfs_mem
    (download : ManifestRow → Except String (List RawFeature))
    (isCanceled : ℕ → Bool) (total : ℕ) :
    ∀ (rows : List ManifestRow) (idx : ℕ) (f : Feature),
      f ∈ (fetchLoop download isCanceled total rows idx).gdfs.flatten →
      ∃ r ∈ rows, ∃ fs, download r = .ok fs ∧ f ∈ fs.map (tagRow r) := by
  intro rows
  induction rows with
  | nil => intro idx f hf; simp [fetchLoop] at hf
  | cons r rest ih =>
    intro idx f hf
    by_cases hc : isCanceled idx = true
    · simp [fetchLoop, hc] at hf
    · have hc' : isCanceled idx = false := by
        revert hc; cases isCanceled idx <;> simp
      cases hdr : download r with
      | ok fs =>
        simp only [fetchLoop, hc', Bool.false_eq_true, if_false, hdr,
          List.flatten_cons, List.mem_append] at hf
        rcases hf with hf | hf
        · exact ⟨r, by simp, fs, hdr, hf⟩
        · obtain ⟨s, hs, gs, hdl, hfm⟩ := ih (idx + 1) f hf
          exact ⟨s, by simp [hs], gs, hdl, hfm⟩
      | error e =>
        simp only [fetchLoop, hc', Bool.false_eq_true, if_false, hdr] at hf
        obtain ⟨s, hs, gs, hdl, hfm⟩ := ih (idx + 1) f hf
        exact ⟨s, by simp [hs], gs, hdl, hfm⟩

theorem length_filterMap_of_all_some {α β : Type} (f : α → Option β) :
    ∀ l : List α, (∀ a ∈ l, (f a).isSome) → (l.filterMap f).length = l.length := by
  intro l
  induction l with
  | nil => simp
  | cons a l ih =>
    intro h
    have ha := h a (by simp)
    cases hfa : f a with
    | none => rw [hfa] at ha; simp at ha
    | some b =>
      simp [List.filterMap_cons, hfa, ih fun x hx => h x (by simp [hx])]

theorem int_log2_eq {q : ℚ} {e : ℤ} (hq : 0 < q)
    (h1 : (2:ℚ) ^ e ≤ q) (h2 : q < (2:ℚ) ^ (e + 1)) : Int.log 2 q = e := by
  have hb : (1:ℕ) < 2 := by norm_num
  have hcast : ((2:ℕ):ℚ) = (2:ℚ) := by norm_num
  have h3 : (2:ℚ) ^ (Int.log 2 q) ≤ q := by
    have := Int.zpow_log_le_self (R := ℚ) hb hq
    rwa [hcast] at this
  have h4 : q < (2:ℚ) ^ (Int.log 2 q + 1) := by
    have := Int.lt_zpow_succ_log_self (R := ℚ) hb q
    rwa [hcast] at this
  have l1 : e < Int.log 2 q + 1 :=
    (zpow_lt_zpow_iff_right₀ (by norm_num : (1:ℚ) < 2)).mp (lt_of_le_of_lt h1 h4)
  have l2 : Int.log 2 q < e + 1 :=
    (zpow_lt_zpow_iff_right₀ (by norm_num : (1:ℚ) < 2)).mp (lt_of_le_of_lt h3 h2)
  omega

theorem floatRound_pos_eq (q : ℚ) (e m : ℤ) (hq : 0 < q)
    (h1 : (2:ℚ) ^ e ≤ q) (h2 : q < (2:ℚ) ^ (e + 1))
    (hm : roundNearestEven (q * (2:ℚ) ^ ((52:ℤ) - e)) = m) :
    floatRound q = (m : ℚ) * (2:ℚ) ^ (e - 52) := by
  unfold floatRound
  rw [if_neg (ne_of_gt hq), if_pos hq, int_log2_eq hq h1 h2, hm]

theorem roundNearestEven_29_div : roundNearestEven
    ((29 / 100 : ℚ) * (2:ℚ) ^ ((52:ℤ) - (-2))) = 5224175567749775 := by
  have hx : (29 / 100 : ℚ) * (2:ℚ) ^ ((52:ℤ) - (-2))
      = 130604389193744384 / 25 := by norm_num
  rw [hx, roundNearestEven]
  norm_num

/-- `fl(29/100)`: the binary64 nearest neighbour of 29/100 lies just
below it (0.28999999999999998). -/
theorem floatRound_29_div : floatRound (29 / 100 : ℚ)
    = 5224175567749775 / 2 ^ 54 := by
  have h := floatRound_pos_eq (29 / 100) (-2) 5224175567749775 (by norm_num)
    (by norm_num) (by norm_num) roundNearestEven_29_div
  rw [h]
  norm_num

theorem roundNearestEven_29_mul : roundNearestEven
    ((5224175567749775 / 2 ^ 54 * 100 : ℚ) * (2:ℚ) ^ ((52:ℤ) - 4))
    = 8162774324609023 := by
  have hx : (5224175567749775 / 2 ^ 54 * 100 : ℚ) * (2:ℚ) ^ ((52:ℤ) - 4)
      = 130604389193744375 / 16 := by norm_num
  rw [hx, roundNearestEven]
  norm_num

/-- `fl(fl(29/100) * 100)`: the rounded product is 28.999999999999996,
strictly below 29. -/
theorem floatRound_29_mul : floatRound (5224175567749775 / 2 ^ 54 * 100 : ℚ)
    = 8162774324609023 / 2 ^ 48 := by
  have h := floatRound_pos_eq (5224175567749775 / 2 ^ 54 * 100) 4
    8162774324609023 (by norm_num) (by norm_num) (by norm_num)
    roundNearestEven_29_mul
  rw [h]
  norm_num

theorem pyProgress_29_100 : pyProgress 29 100 = 28 := by
  unfold pyProgress
  have hc : ((29:ℕ):ℚ) / ((100:ℕ):ℚ) = 29 / 100 := by norm_num
  rw [hc, floatRound_29_div, floatRound_29_mul]
  norm_num
  rfl

theorem pyProgress_zero (total : ℕ) : pyProgress 0 total = 0 := by
  simp [pyProgress, floatRound]

/-! ### Claim theorems: engine and cache -/

/-- C2: for a row list with at least one succeeding and at least one
failing row, the job does not fail: the result holds exactly the
succeeding rows' tagged features (failing rows contribute none), and
each failing row causes exactly one reported error carrying its
quadkey. -/
theorem c2_partial_failure_isolated
    (download : ManifestRow → Except String (List RawFeature))
    (rows : List ManifestRow)
    (hgood : ∃ r ∈ rows, ∃ fs, download r = .ok fs)
    (hbad : ∃ r ∈ rows, ∃ e, download r = .error e) :
    (fetchAndMerge download (fun _ => false) rows).1
      = .ok ((rows.filterMap (succFeatures download)).flatten)
    ∧ errorEvents (fetchAndMerge download (fun _ => false) rows).2
      = rows.filterMap (errEvent download) := by
  have hg := fetchLoop_noCancel_gdfs download rows.length rows 0
  have hne : (rows.filterMap (succFeatures download)).isEmpty = false := by
    rcases hgood with ⟨r, hr, fs, hfs⟩
    have hmem : fs.map (tagRow r) ∈ rows.filterMap (succFeatures download) :=
      List.mem_filterMap.mpr ⟨r, hr, by unfold succFeatures; rw [hfs]⟩
    exact List.isEmpty_eq_false.mpr (List.ne_nil_of_mem hmem)
  constructor
  · simp only [fetchAndMerge, hg, hne, Bool.false_eq_true, if_false]
  · rw [fetchAndMerge_snd]
    exact fetchLoop_noCancel_errorEvents download rows.length rows 0

/-- Concrete manifest rows used to instantiate the engine theorems. -/
def rowAruba : ManifestRow := ⟨"Aruba", "023", "urlA"⟩

def rowFiji : ManifestRow := ⟨"Fiji", "031", "urlB"⟩

/-- Download collaborator that succeeds on `rowAruba` and returns HTTP
404 otherwise. -/
def dlMixed : ManifestRow → Except String (List RawFeature) :=
  fun r => if r.QuadKey == "023" then .ok [⟨"g1"⟩] else .error "HTTP 404"

/-- Download collaborator that always succeeds. -/
def dlGood : ManifestRow → Except String (List RawFeature) :=
  fun _ => .ok [⟨"g1"⟩]

/-- Download collaborator that always fails. -/
def dlFail : ManifestRow → Except String (List RawFeature) :=
  fun _ => .error "HTTP 404"

/-- Witness for C2: one good and one 404 row — the merge keeps exactly
the good row's tagged feature and reports exactly one error naming the
bad row's quadkey. -/
theorem c2_witness :
    (fetchAndMerge dlMixed (fun _ => false) [rowAruba, rowFiji]).1
      = .ok [⟨"g1", "023", "Aruba"⟩]
    ∧ errorEvents (fetchAndMerge dlMixed (fun _ => false) [rowAruba, rowFiji]).2
      = [Event.error "Failed to download 031: HTTP 404"] := by
  have h := c2_partial_failure_isolated dlMixed [rowAruba, rowFiji]
    ⟨rowAruba, by simp, [⟨"g1"⟩], rfl⟩ ⟨rowFiji, by simp, "HTTP 404", rfl⟩
  refine ⟨?_, ?_⟩
  · rw [h.1]; rfl
  · rw [h.2]; rfl

/-- C4: with no cancellation, if every row of a non-empty selection
fails then — after attempting every row, one error report each — the
job fails with `NoDataDownloadedError`; and it never fails with that
error when at least one row succeeds. -/
theorem c4_all_failed
    (download : ManifestRow → Except String (List RawFeature))
    (rows : List ManifestRow) :
    ((rows ≠ []) → (∀ r ∈ rows, ∃ e, download r = .error e) →
      (fetchAndMerge download (fun _ => false) rows).1
        = .error .noDataDownloadedError
      ∧ (errorEvents (fetchAndMerge download (fun _ => false) rows).2).length
        = rows.length)
    ∧ ((∃ r ∈ rows, ∃ fs, download r = .ok fs) →
      (fetchAndMerge download (fun _ => false) rows).1
        ≠ .error .noDataDownloadedError) := by
  have hg := fetchLoop_noCancel_gdfs download rows.length rows 0
  constructor
  · intro _ hall
    have hnil : rows.filterMap (succFeatures download) = [] := by
      refine List.filterMap_eq_nil_iff.mpr fun r hr => ?_
      rcases hall r hr with ⟨e, he⟩
      unfold succFeatures
      rw [he]
    constructor
    · simp [fetchAndMerge, hg, hnil]
    · rw [fetchAndMerge_snd, fetchLoop_noCancel_errorEvents]
      refine length_filterMap_of_all_some _ rows fun r hr => ?_
      rcases hall r hr with ⟨e, he⟩
      unfold errEvent
      rw [he]
      rfl
  · rintro ⟨r, hr, fs, hfs⟩
    have hne : (rows.filterMap (succFeatures download)).isEmpty = false := by
      have hmem : fs.map (tagRow r) ∈ rows.filterMap (succFeatures download) :=
        List.mem_filterMap.mpr ⟨r, hr, by unfold succFeatures; rw [hfs]⟩
      exact List.isEmpty_eq_false.mpr (List.ne_nil_of_mem hmem)
    simp [fetchAndMerge, hg, hne]

/-- Witness for C4: both rows 404 — the job fails with
`NoDataDownloadedError` after two error reports; with one good row it
does not fail with that error. -/
theorem c4_witness :
    (fetchAndMerge dlFail (fun _ => false) [rowAruba, rowFiji]).1
      = .error .noDataDownloadedError
    ∧ (errorEvents (fetchAndMerge dlFail (fun _ => false) [rowAruba, rowFiji]).2).length
      = 2
    ∧ (fetchAndMerge dlMixed (fun _ => false) [rowAruba, rowFiji]).1
      ≠ .error .noDataDownloadedError := by
  have h1 := (c4_all_failed dlFail [rowAruba, rowFiji]).1 (by simp)
    (fun r _ => ⟨"HTTP 404", rfl⟩)
  have h2 := (c4_all_failed dlMixed [rowAruba, rowFiji]).2
    ⟨rowAruba, by simp, [⟨"g1"⟩], rfl⟩
  exact ⟨h1.1, by rw [h1.2]; rfl, h2⟩

/-- Counterexample to C5 as stated: cancellation signaled from the very
start, before any row succeeded. The claim says the engine returns the
(empty) merge of the already-processed rows as a partial result, not an
error; the code instead fails with `NoDataDownloadedError`
(src/mainPlugin.py:204-205). -/
theorem c5_counterexample :
    (fetchAndMerge dlGood (fun _ => true) [rowAruba]).1 ≠ .ok []
    ∧ (fetchAndMerge dlGood (fun _ => true) [rowAruba]).1
      = .error .noDataDownloadedError := by
  refine ⟨?_, rfl⟩
  rw [show (fetchAndMerge dlGood (fun _ => true) [rowAruba]).1
    = .error .noDataDownloadedError from rfl]
  simp

/-- C5 as amended: the cancellation flag is polled at the top of each
iteration; once it is set (from iteration `k` on) the engine stops — the
events are exactly those of a run over the first `k` rows — and,
provided at least one of those rows succeeded, returns their merged
features as a partial result, not an error. In particular, cancellation
after a succeeding first row returns exactly that row's features. -/
theorem c5_amended_partial_on_cancel
    (download : ManifestRow → Except String (List RawFeature))
    (rows : List ManifestRow) (k : ℕ)
    (hsucc : ∃ r ∈ rows.take k, ∃ fs, download r = .ok fs) :
    (fetchAndMerge download (fun i => decide (k ≤ i)) rows).1
      = .ok (((rows.take k).filterMap (succFeatures download)).flatten)
    ∧ (fetchAndMerge download (fun i => decide (k ≤ i)) rows).2
      = (fetchLoop download (fun _ => false) rows.length (rows.take k) 0).events := by
  have hL := fetchLoop_cancelAfter download rows.length k rows 0
  rw [Nat.sub_zero] at hL
  have hg := fetchLoop_noCancel_gdfs download rows.length (rows.take k) 0
  have hne : ((rows.take k).filterMap (succFeatures download)).isEmpty = false := by
    rcases hsucc with ⟨r, hr, fs, hfs⟩
    have hmem : fs.map (tagRow r) ∈ (rows.take k).filterMap (succFeatures download) :=
      List.mem_filterMap.mpr ⟨r, hr, by unfold succFeatures; rw [hfs]⟩
    exact List.isEmpty_eq_false.mpr (List.ne_nil_of_mem hmem)
  constructor
  · simp only [fetchAndMerge, hL, hg, hne, Bool.false_eq_true, if_false]
  · rw [fetchAndMerge_snd, hL]

/-- Witness for C5 (amended): cancellation signaled after the first of
two rows, the first succeeding — exactly one row is processed and its
tagged feature is returned. -/
theorem c5_witness :
    (fetchAndMerge dlMixed (fun i => decide (1 ≤ i)) [rowAruba, rowFiji]).1
      = .ok [⟨"g1", "023", "Aruba"⟩]
    ∧ (fetchAndMerge dlMixed (fun i => decide (1 ≤ i)) [rowAruba, rowFiji]).2
      = [Event.progress 0, Event.info "Downloading quadkey 023..."] := by
  have h := c5_amended_partial_on_cancel dlMixed [rowAruba, rowFiji] 1
    ⟨rowAruba, by simp, [⟨"g1"⟩], rfl⟩
  refine ⟨?_, ?_⟩
  · rw [h.1]; rfl
  · rw [h.2]
    show (fetchLoop dlMixed (fun _ => false) 2 [rowAruba] 0).events
      = [Event.progress 0, Event.info "Downloading quadkey 023..."]
    have hdl : dlMixed rowAruba = .ok [⟨"g1"⟩] := rfl
    simp only [fetchLoop, Bool.false_eq_true, if_false, hdl, pyProgress_zero]
    rfl

/-- C6: when the rows carry non-empty `QuadKey` and `Location` (as the
manifest schema requires), every feature of a successful merge carries
non-empty `quadkey` and `location` fields equal to those of the manifest
row from whose partition it was parsed. -/
theorem c6_provenance
    (download : ManifestRow → Except String (List RawFeature))
    (isCanceled : ℕ → Bool) (rows : List ManifestRow) (feats : List Feature)
    (hwf : ∀ r ∈ rows, r.QuadKey ≠ "" ∧ r.Location ≠ "")
    (hok : (fetchAndMerge download isCanceled rows).1 = .ok feats) :
    ∀ f ∈ feats, (f.quadkey ≠ "" ∧ f.location ≠ "")
      ∧ ∃ r ∈ rows, ∃ fs, download r = .ok fs ∧ f ∈ fs.map (tagRow r)
        ∧ f.quadkey = r.QuadKey ∧ f.location = r.Location := by
  have hfe : feats
      = (fetchLoop download isCanceled rows.length rows 0).gdfs.flatten := by
    by_cases hi : (fetchLoop download isCanceled rows.length rows 0).gdfs.isEmpty
    · simp [fetchAndMerge, hi] at hok
    · simp only [fetchAndMerge, hi, Bool.false_eq_true, if_false] at hok
      exact (Except.ok.inj hok).symm
  intro f hf
  rw [hfe] at hf
  obtain ⟨r, hr, fs, hdl, hfm⟩ :=
    fetchLoop_gdfs_mem download isCanceled rows.length rows 0 f hf
  obtain ⟨raw, _, rfl⟩ := List.mem_map.mp hfm
  exact ⟨⟨(hwf r hr).1, (hwf r hr).2⟩, r, hr, fs, hdl, hfm, rfl, rfl⟩

/-- Witness for C6: a one-row successful run — the produced feature
carries non-empty quadkey and location fields. -/
theorem c6_witness :
    (⟨"g1", "023", "Aruba"⟩ : Feature).quadkey ≠ ""
    ∧ (⟨"g1", "023", "Aruba"⟩ : Feature).location ≠ "" := by
  have h := c6_provenance dlGood (fun _ => false) [rowAruba]
    [⟨"g1", "023", "Aruba"⟩] (by decide) rfl
    (⟨"g1", "023", "Aruba"⟩ : Feature) (by simp)
  exact h.1

/-- C8: the claim pins the reported progress to exactly
`floor(100 * completed_rows / total_rows)`, but the code
(src/mainPlugin.py:184) evaluates `int((idx / total) * 100)` in
binary64: at `completed_rows = 29` of `total_rows = 100` the doubly
rounded product is 28.999999999999996, truncated to 28, one below the
exact floor value 29 — the loop reports 28 there. -/
theorem c8_progress_float_divergence :
    pyProgress 29 100 = 28
    ∧ (fetchLoop dlGood (fun _ => false) 100 [rowAruba] 29).events
      = [Event.progress 28, Event.info "Downloading quadkey 023..."]
    ∧ 100 * 29 / 100 = 29 := by
  refine ⟨pyProgress_29_100, ?_, rfl⟩
  have hdl : dlGood rowAruba = .ok [⟨"g1"⟩] := rfl
  simp only [fetchLoop, Bool.false_eq_true, if_false, hdl, pyProgress_29_100]
  rfl

/-- C9: the manifest load step performs at most one load; with a
populated cache and no explicit source path it reuses the cached table
with zero loads; an explicitly supplied path forces a fresh load even
with a populated cache; and a fresh job instance starts with its own
empty cache, so nothing is shared process-wide. -/
theorem c9_manifest_cache (fetch : String → Except String (List ManifestRow))
    (t table : List ManifestRow) :
    (∀ cache csvPath out, loadManifestStep fetch cache csvPath = .ok out →
      out.loads ≤ 1)
    ∧ loadManifestStep fetch (some t) "" = .ok ⟨t, some t, 0⟩
    ∧ (∀ csvPath, csvPath ≠ "" → fetch csvPath = .ok table →
        loadManifestStep fetch (some t) csvPath = .ok ⟨table, some table, 1⟩)
    ∧ initCache = none := by
  refine ⟨?_, ?_, ?_, rfl⟩
  · intro cache csvPath out hstep
    unfold loadManifestStep at hstep
    by_cases hp : csvPath ≠ ""
    · rw [if_pos hp] at hstep
      cases hf : fetch csvPath with
      | ok u =>
        rw [hf] at hstep
        rcases Except.ok.inj hstep with rfl
        exact Nat.le_refl 1
      | error e => rw [hf] at hstep; exact absurd hstep (by simp)
    · rw [if_neg hp] at hstep
      cases cache with
      | some u =>
        rcases Except.ok.inj hstep with rfl
        exact Nat.zero_le 1
      | none =>
        cases hf : fetch ONLINE_MANIFEST_URL with
        | ok u =>
          rw [hf] at hstep
          rcases Except.ok.inj hstep with rfl
          exact Nat.le_refl 1
        | error e => rw [hf] at hstep; exact absurd hstep (by simp)
  · unfold loadManifestStep
    simp
  · intro csvPath hcp hfe
    unfold loadManifestStep
    rw [if_pos hcp, hfe]

/-- Local manifest fetch collaborator for the C9 witness. -/
def fetchLocal : String → Except String (List ManifestRow) :=
  fun s => if s == "local.csv" then .ok [rowAruba] else .error "unreachable"

/-- Witness for C9: with a cached table, an empty path reuses the cache
with zero loads, while an explicit path reloads from it. -/
theorem c9_witness :
    loadManifestStep fetchLocal (some [rowFiji]) "" = .ok ⟨[rowFiji], some [rowFiji], 0⟩
    ∧ loadManifestStep fetchLocal (some [rowFiji]) "local.csv"
      = .ok ⟨[rowAruba], some [rowAruba], 1⟩ := by
  have h := c9_manifest_cache fetchLocal [rowFiji] [rowAruba]
  exact ⟨h.2.1, h.2.2.1 "local.csv" (by decide) rfl⟩

/-- C10: if no row succeeds before cancellation takes effect — each row
is either never reached because the flag was set at its iteration, or
fails — the job terminates with `NoDataDownloadedError`, exactly as a
job in which every row failed. -/
theorem c10_canceled_without_success
    (download : ManifestRow → Except String (List RawFeature))
    (isCanceled : ℕ → Bool) (rows : List ManifestRow)
    (hne : rows ≠ [])
    (h : ∀ j (hj : j < rows.length), isCanceled j = true
      ∨ ∃ e, download (rows.get ⟨j, hj⟩) = .error e) :
    (fetchAndMerge download isCanceled rows).1
      = .error .noDataDownloadedError := by
  have hg := fetchLoop_gdfs_nil download isCanceled rows.length rows 0
    (fun j hj => by simpa using h j hj)
  simp [fetchAndMerge, hg]

/-- Witness for C10: cancellation signaled before the first of two
downloadable rows — the canceled job fails with `NoDataDownloadedError`
despite every row being downloadable. -/
theorem c10_witness :
    (fetchAndMerge dlGood (fun _ => true) [rowAruba, rowFiji]).1
      = .error .noDataDownloadedError :=
  c10_canceled_without_success dlGood (fun _ => true) [rowAruba, rowFiji]
    (by simp) (fun j hj => Or.inl rfl)

end MS
